import Mathlib

/-!
Verification of the sniper event-to-decision pipeline.

Shallow embedding of the TypeScript sources:
  - `src/sniper.ts` (creator validation, spam counter, block cursor,
    event dedup, slow-validation retry, liquidity watchlist)
  - `src/utils/lruCache.ts` (LRU + TTL bounded cache)
  - `src/utils/retry.ts` (retry with exponential backoff)

Times (`Date.now()` values, ms durations) are modelled as `Int`; follower
counts and block numbers as `Nat`; fractional quantities (Neynar score,
USD liquidity) as `Rat`.  JS `undefined`/missing fields are `Option`.
-/

namespace Sniper

/-! ### Thresholds (constants from sniper.ts) -/

/-- `MIN_NEYNAR = 0.90` -/
def MIN_NEYNAR : ℚ := 0.90

/-- `MIN_TWITTER_FOLLOWERS = 70000` (big-account bar) -/
def MIN_TWITTER_FOLLOWERS : ℕ := 70000

/-- `MIN_TWITTER_MINIMUM = 5000` (floor when a Twitter count is known) -/
def MIN_TWITTER_MINIMUM : ℕ := 5000

/-- `MIN_FARCASTER_FOLLOWERS = 10000` -/
def MIN_FARCASTER_FOLLOWERS : ℕ := 10000

/-- `MAX_TOKENS_PER_CREATOR = 2` -/
def MAX_TOKENS_PER_CREATOR : ℕ := 2

/-- `CREATOR_WINDOW_MS = 24 * 60 * 60 * 1000` -/
def CREATOR_WINDOW_MS : ℤ := 24 * 60 * 60 * 1000

/-- `MIN_LIQUIDITY_USD = 5000` -/
def MIN_LIQUIDITY_USD : ℚ := 5000

/-- `WATCHLIST_CHECK_INTERVAL_MS = 10000` -/
def WATCHLIST_CHECK_INTERVAL_MS : ℤ := 10000

/-- `WATCHLIST_MAX_AGE_MS = 60 * 60 * 1000` -/
def WATCHLIST_MAX_AGE_MS : ℤ := 60 * 60 * 1000

/-! ### Creator validation (`evaluateCreator`, sniper.ts lines 1431-1512)

`SNIPER_NEYNAR_GATE_ENABLED` and `SNIPER_MIN_NEYNAR_SCORE` are read from
the environment, so they are parameters of the embedding. -/

/-- `CreatorInfo` as used by `evaluateCreator` / `checkCreatorSpamAndRecord`.
Optional fields are `undefined`-able in the source. -/
structure CreatorInfo where
  fid : Option ℕ
  username : Option String
  neynarScore : Option ℚ
  farcasterFollowers : Option ℕ
  twitterHandle : Option String
  twitterFollowers : Option ℕ
deriving Repr, DecidableEq

/-- Environment-derived validation configuration. -/
structure EvalConfig where
  gateEnabled : Bool
  minNeynarScore : ℚ
deriving Repr, DecidableEq

/-- Result of `evaluateCreator` (the `creatorInfo`-less `ValidationResult`). -/
structure EvalResult where
  passes : Bool
  reasons : List String
deriving Repr, DecidableEq

/-- `evaluateCreator` from sniper.ts.  The reason strings keep the stable
tags of the source; the interpolated numeric suffixes of the log/reason
messages are omitted (no claim depends on them). -/
def evaluateCreator (cfg : EvalConfig) (ci : CreatorInfo) : EvalResult :=
  let twitterBigAccount :=
    ci.twitterFollowers.any (fun t => decide (MIN_TWITTER_FOLLOWERS ≤ t))
  -- 1. Neynar score check (optional gate; bypassed by a big Twitter account)
  let neynarPasses :=
    !cfg.gateEnabled || twitterBigAccount ||
      ci.neynarScore.any (fun s => decide (cfg.minNeynarScore ≤ s))
  -- 2. Twitter minimum check (if Twitter exists, must be >= 5K)
  let twitterMinimumPasses :=
    ci.twitterFollowers.all (fun t => decide (MIN_TWITTER_MINIMUM ≤ t))
  -- 3. Follower check (Twitter >= 70K OR Farcaster >= 10K)
  let twitterPasses :=
    ci.twitterFollowers.any (fun t => decide (MIN_TWITTER_FOLLOWERS ≤ t))
  let farcasterPasses :=
    ci.farcasterFollowers.any (fun f => decide (MIN_FARCASTER_FOLLOWERS ≤ f))
  let followerPasses := twitterPasses || farcasterPasses
  let passes := neynarPasses && twitterMinimumPasses && followerPasses
  let reasons :=
    if passes then []
    else
      (if cfg.gateEnabled && !neynarPasses && !twitterBigAccount then
        (match ci.neynarScore with
          | some _ => ["neynar_low"]
          | none => ["neynar_unavailable"])
      else []) ++
      (if !twitterMinimumPasses then ["twitter_below_5k"] else []) ++
      (if !followerPasses then ["followers_low"] else [])
  { passes := passes, reasons := reasons }

/-- The big-account bypass of `evaluateCreator`: Twitter followers known
and at or above `MIN_TWITTER_FOLLOWERS`. -/
def twitterBigAccountP (ci : CreatorInfo) : Prop :=
  ∃ t, ci.twitterFollowers = some t ∧ MIN_TWITTER_FOLLOWERS ≤ t

instance (ci : CreatorInfo) : Decidable (twitterBigAccountP ci) := by
  unfold twitterBigAccountP
  cases ci.twitterFollowers with
  | none => exact .isFalse (by simp)
  | some t => exact decidable_of_iff (MIN_TWITTER_FOLLOWERS ≤ t) (by simp)

/-! ### Block cursor (`markSniperCursor` / `flushSniperCursor`,
sniper.ts lines 217-238)

`sniperLastSeenBlock : bigint | null` and `sniperCursorDirty : boolean`
form the in-memory cursor state. -/

/-- The in-memory cursor state. -/
structure CursorState where
  lastSeenBlock : Option ℕ
  dirty : Bool
deriving Repr, DecidableEq

/-- `markSniperCursor(block)`.  The JS guard `if (!block) return` drops
`undefined`, `null` and the falsy bigint `0n` alike, so `some 0` is also a
no-op. -/
def markSniperCursor (s : CursorState) (block : Option ℕ) : CursorState :=
  match block with
  | none => s
  | some b =>
    if b = 0 then s
    else
      match s.lastSeenBlock with
      | none => { lastSeenBlock := some b, dirty := true }
      | some prev =>
        if prev < b then { lastSeenBlock := some b, dirty := true } else s

/-- `flushSniperCursor()`.  `writeOk` models whether the
`writeSniperCursor` file write succeeds; on failure the dirty flag is
restored.  The returned Bool reports whether a durable write was
attempted. -/
def flushSniperCursor (s : CursorState) (writeOk : Bool) :
    CursorState × Bool :=
  if s.dirty = false then (s, false)
  else
    match s.lastSeenBlock with
    | none => (s, false)
    | some _ => (⟨s.lastSeenBlock, !writeOk⟩, true)

/-- Modelled from the claim wording of C6 (for comparison with the code):
the maximum of the initial cursor and ALL non-null block numbers passed,
zero included. -/
def cursorSpecMaxNonNull : Option ℕ → List (Option ℕ) → Option ℕ
  | init, [] => init
  | init, none :: rest => cursorSpecMaxNonNull init rest
  | init, some v :: rest =>
    match init with
    | none => cursorSpecMaxNonNull (some v) rest
    | some w => cursorSpecMaxNonNull (some (max w v)) rest

/-- The maximum of the initial cursor and the truthy (non-null, non-zero)
block numbers passed — what `markSniperCursor` actually accumulates. -/
def cursorTruthyMax : Option ℕ → List (Option ℕ) → Option ℕ
  | init, [] => init
  | init, none :: rest => cursorTruthyMax init rest
  | init, some v :: rest =>
    if v = 0 then cursorTruthyMax init rest
    else
      match init with
      | none => cursorTruthyMax (some v) rest
      | some w => cursorTruthyMax (some (max w v)) rest

/-! ### Slow-validation retry (`validateTokenWithRetry`,
sniper.ts lines 1658-1688)

`scheduleSlowValidation` runs `validateTokenWithRetry(token, 3)`.  The
outcome of the i-th `validateToken` call is supplied as `results i`; only
`passes` and `reasons` are inspected by the loop. -/

/-- A `ValidationResult` as inspected by the retry loop. -/
structure ValidationResultM where
  passes : Bool
  reasons : List String
deriving Repr, DecidableEq

/-- `const delays = [1000, 2000, 4000, 8000, 16000]`. -/
def retryDelays : List ℤ := [1000, 2000, 4000, 8000, 16000]

/-- A result that keeps the loop retrying: creator not found or a
platform 503. -/
def retryableResult (r : ValidationResultM) : Bool :=
  r.reasons.contains "creator_not_found" || r.reasons.contains "api_error_503"

/-- `result.reasons.includes("api_error_503")`. -/
def result503 (r : ValidationResultM) : Bool :=
  r.reasons.contains "api_error_503"

/-- The delay computed for the retry after attempt `i`:
`delays[attempt] ?? delays[delays.length - 1] ?? 16000`, doubled and
capped at 30s when the attempt failed with a 503. -/
def slowRetryDelay (results : ℕ → ValidationResultM) (i : ℕ) : ℤ :=
  let baseDelay := retryDelays.getD i (retryDelays.getD (retryDelays.length - 1) 16000)
  if result503 (results i) then min (baseDelay * 2) 30000 else baseDelay

/-- The `for` loop of `validateTokenWithRetry`; `fuel` is the number of
remaining iterations (`maxRetries + 1 - attempt` at the top call); the
fuel-0 case is the fallthrough return after the loop. -/
def validateTokenWithRetryGo (results : ℕ → ValidationResultM)
    (maxRetries : ℕ) : ℕ → ℕ → ValidationResultM × List ℤ
  | _attempt, 0 => (⟨false, ["creator_not_found_after_retries"]⟩, [])
  | attempt, fuel + 1 =>
    let r := results attempt
    if !retryableResult r then (r, [])
    else if attempt < maxRetries then
      let next := validateTokenWithRetryGo results maxRetries (attempt + 1) fuel
      (next.1, slowRetryDelay results attempt :: next.2)
    else (⟨false, ["creator_not_found_after_retries"]⟩, [])

/-- `validateTokenWithRetry(token, maxRetries)`: the final result and the
list of waits performed between attempts. -/
def validateTokenWithRetry (results : ℕ → ValidationResultM)
    (maxRetries : ℕ) : ValidationResultM × List ℤ :=
  validateTokenWithRetryGo results maxRetries 0 (maxRetries + 1)

end Sniper

/-! ### Bounded LRU + TTL cache (`src/utils/lruCache.ts`)

The JS class stores a `Map` from keys to `{value, expiresAt}`.  A JS `Map`
iterates in insertion order and `keys().next().value` is the oldest key, so
the map is modelled as a list of `(key, value, expiresAt)` triples, least
recently used first.  `Date.now()` is passed explicitly as `now`. -/

/-- The cache state of `class LRUCache<K, V>`. -/
structure LRUCache (K V : Type) where
  maxSize : ℕ
  ttlMs : ℤ
  entries : List (K × V × ℤ)

namespace LRUCache

variable {K V : Type} [DecidableEq K]

/-- All entries for key `k` removed (`this.cache.delete(key)`; the map
holds at most one entry per key, `filter` keeps the rest in order). -/
def eraseEntries (k : K) (es : List (K × V × ℤ)) : List (K × V × ℤ) :=
  es.filter (fun e => decide (e.1 ≠ k))

/-- `this.cache.get(key)` (lookup only, no recency change). -/
def findEntry (c : LRUCache K V) (k : K) : Option (K × V × ℤ) :=
  c.entries.find? (fun e => decide (e.1 = k))

/-- The eviction loop of `set`: `while (size >= maxSize) delete oldest`.
(When `maxSize = 0` and the map is empty the JS loop never terminates; the
model returns the empty map.  Every instantiation in the sources uses
`maxSize` of at least 1,000.) -/
def evictOldest (maxSize : ℕ) : List (K × V × ℤ) → List (K × V × ℤ)
  | [] => []
  | e :: rest =>
    if maxSize ≤ (e :: rest).length then evictOldest maxSize rest
    else e :: rest

/-- `LRUCache.get`: miss on absent or expired key (expired entry deleted);
on a hit the entry is re-inserted at the most-recently-used end. -/
def get (c : LRUCache K V) (now : ℤ) (k : K) : Option V × LRUCache K V :=
  match c.findEntry k with
  | none => (none, c)
  | some (k0, v, exp) =>
    if exp < now then
      (none, { c with entries := eraseEntries k c.entries })
    else
      (some v, { c with entries := eraseEntries k c.entries ++ [(k0, v, exp)] })

/-- `LRUCache.set`: delete an existing entry for the key, evict oldest
entries while at capacity, then append at the most-recently-used end with
expiry `now + (customTtlMs ?? ttlMs)`. -/
def set (c : LRUCache K V) (now : ℤ) (k : K) (v : V)
    (customTtlMs : Option ℤ) : LRUCache K V :=
  let es1 :=
    if (c.findEntry k).isSome then eraseEntries k c.entries else c.entries
  let es2 := evictOldest c.maxSize es1
  { c with entries := es2 ++ [(k, v, now + customTtlMs.getD c.ttlMs)] }

/-- `LRUCache.has`: true exactly on an unexpired entry; an expired entry is
deleted on the way. -/
def has (c : LRUCache K V) (now : ℤ) (k : K) : Bool × LRUCache K V :=
  match c.findEntry k with
  | none => (false, c)
  | some (_, _, exp) =>
    if exp < now then (false, { c with entries := eraseEntries k c.entries })
    else (true, c)

/-- `LRUCache.delete`. -/
def del (c : LRUCache K V) (k : K) : LRUCache K V :=
  { c with entries := eraseEntries k c.entries }

/-- The entry list built inside `set` before the new entry is appended
(existing entry for the key deleted, then oldest entries evicted). -/
def setBase (c : LRUCache K V) (k : K) : List (K × V × ℤ) :=
  evictOldest c.maxSize
    (if (c.findEntry k).isSome then eraseEntries k c.entries else c.entries)

end LRUCache

/-! ### Retry with exponential backoff (`src/utils/retry.ts`)

`withRetry` runs `fn` up to `maxRetries + 1` times; a thrown error is
re-raised as a `RetryError` when attempts are exhausted or `shouldRetry`
rejects it, otherwise the loop sleeps `delay` ms and doubles the delay up
to `maxDelayMs`.  The outcome of the i-th call of `fn` is supplied as
`fn i`; the model returns the final result and the sleeps performed. -/

namespace Retry

/-- Thrown error values as the retry predicates distinguish them:
`typeErr` is a network failure (`TypeError`), `abortErr` an `AbortError`,
`httpErr s` the plain `Error("HTTP <s>: <statusText>")` thrown by
`fetchWithRetry` for a response status >= 500 or = 429, `otherErr` any
other exception. -/
inductive JsErr
  | typeErr
  | abortErr
  | httpErr (status : ℕ)
  | otherErr
deriving Repr, DecidableEq

/-- Outcome of a `withRetry` run: either the first successful value or a
`RetryError` carrying the attempt count and last error, together with the
list of sleep durations performed between attempts. -/
structure RetryResult (A : Type) where
  result : Except (ℕ × JsErr) A
  waits : List ℤ
deriving Repr

/-- The `for` loop of `withRetry`.  `fuel` is the number of remaining
iterations (`maxRetries + 1 - attempt` at the top call); the fuel-0 case
is the unreachable final `throw` after the loop. -/
def withRetryGo {A : Type} (fn : ℕ → Except JsErr A)
    (shouldRetry : JsErr → Bool) (maxRetries : ℕ) (maxDelayMs mult : ℤ) :
    ℕ → ℤ → ℕ → RetryResult A
  | _attempt, _delay, 0 => ⟨.error (maxRetries + 1, .otherErr), []⟩
  | attempt, delay, fuel + 1 =>
    match fn attempt with
    | .ok a => ⟨.ok a, []⟩
    | .error e =>
      if maxRetries ≤ attempt || !shouldRetry e then
        ⟨.error (attempt + 1, e), []⟩
      else
        let next := withRetryGo fn shouldRetry maxRetries maxDelayMs mult
          (attempt + 1) (min (delay * mult) maxDelayMs) fuel
        ⟨next.result, delay :: next.waits⟩

/-- `withRetry(fn, options)`; option defaults are `maxRetries = 3`,
`initialDelayMs = 500`, `maxDelayMs = 10000`, `backoffMultiplier = 2`. -/
def withRetry {A : Type} (fn : ℕ → Except JsErr A) (maxRetries : ℕ)
    (initialDelayMs maxDelayMs mult : ℤ) (shouldRetry : JsErr → Bool) :
    RetryResult A :=
  withRetryGo fn shouldRetry maxRetries maxDelayMs mult 0 initialDelayMs
    (maxRetries + 1)

/-- The default `shouldRetry` of `fetchWithRetry` in utils/retry.ts when
the caller supplies none: retry only on network errors
(`error instanceof TypeError`). -/
def defaultFetchShouldRetry : JsErr → Bool
  | .typeErr => true
  | _ => false

/-- The closure `fetchWithRetry` passes to `withRetry`: `outcomes i` is
the network-level result of the i-th `fetch` (`.ok status` a completed
response); a status >= 500 or = 429 is converted into a thrown
`Error("HTTP ...")`. -/
def fetchAttempt (outcomes : ℕ → Except JsErr ℕ) (i : ℕ) : Except JsErr ℕ :=
  match outcomes i with
  | .error e => .error e
  | .ok status =>
    if 500 ≤ status || status = 429 then .error (.httpErr status)
    else .ok status

/-- `fetchWithRetry(url, init, options)` with NO caller-supplied
`shouldRetry` and default retry options (the `guardedFetch` path adds only
a timeout and concurrency limiter around this). -/
def fetchWithRetry (outcomes : ℕ → Except JsErr ℕ) : RetryResult ℕ :=
  withRetry (fetchAttempt outcomes) 3 500 10000 2 defaultFetchShouldRetry

end Retry

namespace Sniper

/-! ### Creator spam counter (`checkCreatorSpamAndRecord`,
sniper.ts lines 1395-1429)

`creatorTokenCount` is a JS `Map<string, {count, firstSeen}>` (modelled as
an association list in insertion order); `spamCountedTokens` is an
`LRUCache<string, true>(50_000, CREATOR_WINDOW_MS)`. -/

/-- JS `String.prototype.toLowerCase()`: per-character lowercase
(defined over the character list so that concrete instances evaluate). -/
def lowerString (s : String) : String := ⟨s.data.map Char.toLower⟩

/-- `Map.get` on the creator-count map. -/
def mapLookup : List (String × ℕ × ℤ) → String → Option (ℕ × ℤ)
  | [], _ => none
  | e :: rest, k => if e.1 = k then some e.2 else mapLookup rest k

/-- `Map.set` on the creator-count map: replace in place, else append. -/
def mapSet : List (String × ℕ × ℤ) → String → ℕ × ℤ →
    List (String × ℕ × ℤ)
  | [], k, v => [(k, v)]
  | e :: rest, k, v =>
    if e.1 = k then (k, v) :: rest else e :: mapSet rest k v

/-- The spam-tracking state. -/
structure SpamState where
  creatorTokenCount : List (String × ℕ × ℤ)
  spamCountedTokens : LRUCache String Bool

/-- `creatorInfo.fid?.toString() || creatorInfo.twitterHandle || "unknown"`
(JS `||` also skips the falsy empty string). -/
def creatorKeyOf (ci : CreatorInfo) : String :=
  match ci.fid with
  | some f => toString f
  | none =>
    match ci.twitterHandle with
    | some h => if h = "" then "unknown" else h
    | none => "unknown"

/-- `checkCreatorSpamAndRecord(creatorInfo, tokenAddress)`: result
`(passes, reason?)` and the updated state. -/
def checkCreatorSpamAndRecord (now : ℤ) (st : SpamState) (ci : CreatorInfo)
    (tokenAddress : String) : (Bool × Option String) × SpamState :=
  let tokenKey := lowerString tokenAddress
  let hasRes := st.spamCountedTokens.has now tokenKey
  if hasRes.1 then
    ((true, none), { st with spamCountedTokens := hasRes.2 })
  else
    let creatorKey := creatorKeyOf ci
    if creatorKey = "unknown" then
      ((true, none), { st with spamCountedTokens := hasRes.2 })
    else
      match mapLookup st.creatorTokenCount creatorKey with
      | none =>
        ((true, none),
         { creatorTokenCount := mapSet st.creatorTokenCount creatorKey (1, now),
           spamCountedTokens := hasRes.2.set now tokenKey true none })
      | some (count, firstSeen) =>
        if CREATOR_WINDOW_MS < now - firstSeen then
          ((true, none),
           { creatorTokenCount :=
               mapSet st.creatorTokenCount creatorKey (1, now),
             spamCountedTokens := hasRes.2.set now tokenKey true none })
        else if MAX_TOKENS_PER_CREATOR ≤ count then
          ((false, some ("spam: " ++ creatorKey)),
           { st with spamCountedTokens := hasRes.2 })
        else
          ((true, none),
           { creatorTokenCount :=
               mapSet st.creatorTokenCount creatorKey (count + 1, firstSeen),
             spamCountedTokens := hasRes.2.set now tokenKey true none })

/-- The count recorded for a creator key in the count map (0 when
absent). -/
def countOf (m : List (String × ℕ × ℤ)) (k : String) : ℕ :=
  match mapLookup m k with
  | none => 0
  | some (c, _) => c

/-- The count recorded for a creator key (0 when absent). -/
def creatorCount (st : SpamState) (k : String) : ℕ :=
  countOf st.creatorTokenCount k

/-! ### Event ingestion and dedup (`getEventId` / the `onLogs` loop,
sniper.ts lines 240-251 and 2536-2558; the backfill loop at lines 519-548
runs the same per-log dedup + dispatch pattern)

`processedEventIds` is an `LRUCache<string, true>(50_000,
SNIPER_DEDUP_TTL_MS)`.  The dispatched list records the logs handed to
`runEventTask` (one handler invocation each); the error path that un-marks
the DedupKey after a failed handler is outside this model. -/

/-- The fields of a viem `Log` that `getEventId`, the dedup loop and the
cursor read.  `nestedLogIndex` is `(log as any).log?.logIndex`. -/
structure LogM where
  transactionHash : Option String
  logIndex : Option ℕ
  index : Option ℕ
  nestedLogIndex : Option ℕ
  address : Option String
  blockNumber : Option ℕ
deriving Repr, DecidableEq

/-- `getEventId(log)`:
`"${txHash}:${logIndex ?? index ?? log?.logIndex ?? "unknown"}:${addr}"`
with the address lowercased and absent tx hash rendered `"unknown"`. -/
def getEventId (log : LogM) : String :=
  let txHash := log.transactionHash.getD "unknown"
  let logIndexStr :=
    match log.logIndex with
    | some i => toString i
    | none =>
      match log.index with
      | some i => toString i
      | none =>
        match log.nestedLogIndex with
        | some i => toString i
        | none => "unknown"
  let address := lowerString (log.address.getD "")
  txHash ++ ":" ++ logIndexStr ++ ":" ++ address

/-- Ingestion state: the dedup cache and the block cursor. -/
structure IngestState where
  processedEventIds : LRUCache String Bool
  cursor : CursorState

/-- The per-batch `onLogs` loop (same shape in `subscribeClanker`,
`subscribeZora`, `subscribeVIP` and the backfill loop): for each log,
skip when the DedupKey is already marked, otherwise mark it
synchronously, advance the cursor, and dispatch the handler.  Returns
the final state and the dispatched logs. -/
def processLogs (now : ℤ) : IngestState → List LogM → IngestState × List LogM
  | st, [] => (st, [])
  | st, log :: rest =>
    let eventId := getEventId log
    let hasRes := st.processedEventIds.has now eventId
    if hasRes.1 then
      processLogs now { st with processedEventIds := hasRes.2 } rest
    else
      let st1 : IngestState :=
        { processedEventIds := hasRes.2.set now eventId true none,
          cursor := markSniperCursor st.cursor log.blockNumber }
      ((processLogs now st1 rest).1, log :: (processLogs now st1 rest).2)

/-! ### Liquidity watchlist (`checkWatchlistLiquidity`,
sniper.ts lines 1914-2010)

One scan tick over the `pendingTokens` map.  `fetchLiq a` abstracts
`fetchPairsForToken` + `aggregateTokenMetrics`: `none` models an empty
pair list or a thrown fetch error (entry stays pending), `some liq` the
aggregated `totalLiquidityUsd`.  Dispatch (the liquidity-hit branch that
invokes the alert/auto-buy path and removes the entry) is recorded per
address. -/

/-- A `PendingToken` as far as the scan inspects it. -/
structure PendingTokenM where
  addedAt : ℤ
  lastChecked : ℤ
  checkCount : ℕ
deriving Repr, DecidableEq

/-- The fate of one watchlist entry in one tick: `(kept entry?,
dispatched?, fetched?)`.  The first classification pass removes expired
entries (before any liquidity fetch) and skips recently checked ones;
checked entries get `lastChecked`/`checkCount` updated, are fetched, and
a liquidity at or above `MIN_LIQUIDITY_USD` dispatches and removes. -/
def scanEntry (now : ℤ) (fetchLiq : String → Option ℚ) (a : String)
    (p : PendingTokenM) : Option (String × PendingTokenM) × Bool × Bool :=
  if WATCHLIST_MAX_AGE_MS < now - p.addedAt then
    (none, false, false)
  else if now - p.lastChecked < WATCHLIST_CHECK_INTERVAL_MS then
    (some (a, p), false, false)
  else
    let p1 : PendingTokenM :=
      { p with lastChecked := now, checkCount := p.checkCount + 1 }
    match fetchLiq a with
    | none => (some (a, p1), false, true)
    | some liq =>
      if MIN_LIQUIDITY_USD ≤ liq then (none, true, true)
      else (some (a, p1), false, true)

/-- One tick of `checkWatchlistLiquidity` over the pending map (an
association list in insertion order; each entry is handled independently
by `scanEntry`): the remaining map, the dispatched addresses, and the
addresses for which a liquidity fetch was performed. -/
def checkWatchlistLiquidity (now : ℤ) (fetchLiq : String → Option ℚ)
    (pending : List (String × PendingTokenM)) :
    List (String × PendingTokenM) × List String × List String :=
  (pending.filterMap (fun e => (scanEntry now fetchLiq e.1 e.2).1),
   (pending.filter (fun e => (scanEntry now fetchLiq e.1 e.2).2.1)).map
     Prod.fst,
   (pending.filter (fun e => (scanEntry now fetchLiq e.1 e.2).2.2)).map
     Prod.fst)

end Sniper

namespace Sniper

/-- Claim C1: `evaluateCreator` passes exactly when (a) the Twitter follower
count is unknown or at least the 5,000 floor, (b) at least one outsized-reach
bar is met (Twitter known and at least 70,000, or Farcaster known and at
least 10,000), and (c) whenever the reputation-score gate is enabled and the
Twitter big-account bypass does not apply, the Neynar score is known and at
least the configured minimum. -/
theorem evaluateCreator_passes_iff (cfg : EvalConfig) (ci : CreatorInfo) :
    (evaluateCreator cfg ci).passes = true ↔
      ((∀ t, ci.twitterFollowers = some t → MIN_TWITTER_MINIMUM ≤ t)
        ∧ ((∃ t, ci.twitterFollowers = some t ∧ MIN_TWITTER_FOLLOWERS ≤ t)
            ∨ (∃ f, ci.farcasterFollowers = some f ∧ MIN_FARCASTER_FOLLOWERS ≤ f))
        ∧ (cfg.gateEnabled = true → ¬ twitterBigAccountP ci →
            ∃ s, ci.neynarScore = some s ∧ cfg.minNeynarScore ≤ s)) := by
  rcases ci with ⟨fid, un, ns, fc, th, tw⟩
  rcases cfg with ⟨gate, ms⟩
  simp only [← or_iff_not_imp_left]
  cases tw <;> cases fc <;> cases ns <;> cases gate <;>
    simp [evaluateCreator, twitterBigAccountP, decide_eq_true_eq] <;>
    tauto

/-- Claim C8: with Twitter and Farcaster follower counts fixed and the
big-account bypass not applying, if `evaluateCreator` passes with the
Neynar gate enabled then it also passes with the gate disabled. -/
theorem evaluateCreator_gate_monotone (ms : ℚ) (ci : CreatorInfo)
    (hnb : ¬ twitterBigAccountP ci)
    (hp : (evaluateCreator ⟨true, ms⟩ ci).passes = true) :
    (evaluateCreator ⟨false, ms⟩ ci).passes = true := by
  rw [evaluateCreator_passes_iff] at hp ⊢
  exact ⟨hp.1, hp.2.1, by simp⟩

/-- Witness for C8 at a concrete creator: 6,000 Twitter followers (below the
bypass), 20,000 Farcaster followers, Neynar score 0.95 against a 0.9 floor. -/
theorem evaluateCreator_gate_monotone_witness :
    (evaluateCreator ⟨false, 0.9⟩
      ⟨some 7, none, some 0.95, some 20000, none, some 6000⟩).passes = true :=
  evaluateCreator_gate_monotone 0.9
    ⟨some 7, none, some 0.95, some 20000, none, some 6000⟩
    (by rintro ⟨t, ht, hle⟩; simp [MIN_TWITTER_FOLLOWERS] at ht hle; omega)
    (by norm_num [evaluateCreator, MIN_TWITTER_FOLLOWERS, MIN_TWITTER_MINIMUM,
          MIN_FARCASTER_FOLLOWERS])

end Sniper

namespace LRUCache

variable {K V : Type} [DecidableEq K]

theorem mem_eraseEntries {k : K} {es : List (K × V × ℤ)} {e : K × V × ℤ} :
    e ∈ eraseEntries k es ↔ e ∈ es ∧ e.1 ≠ k := by
  simp [eraseEntries]

theorem eraseEntries_sublist (k : K) (es : List (K × V × ℤ)) :
    (eraseEntries k es).Sublist es :=
  List.filter_sublist es

theorem eraseEntries_of_not_mem {k : K} {es : List (K × V × ℤ)}
    (h : ∀ e ∈ es, e.1 ≠ k) : eraseEntries k es = es := by
  induction es with
  | nil => rfl
  | cons e rest ih =>
    have he := h e (by simp)
    simp only [eraseEntries, List.filter_cons, decide_eq_true_eq] at *
    rw [if_pos (by simpa using he)]
    rw [ih (fun x hx => h x (by simp [hx]))]

theorem find?_eraseEntries_ne {k k' : K} (hne : k' ≠ k)
    (es : List (K × V × ℤ)) :
    (eraseEntries k es).find? (fun e => decide (e.1 = k')) =
      es.find? (fun e => decide (e.1 = k')) := by
  induction es with
  | nil => rfl
  | cons e rest ih =>
    by_cases hek : e.1 = k
    · have : (fun e => decide (e.1 = k')) e = false := by
        simp [hek]; exact fun h => hne h.symm
      simp only [eraseEntries, List.filter_cons]
      rw [if_neg (by simp [hek])]
      rw [List.find?_cons_of_neg _ (by simp [this, hek]; exact fun h => hne h.symm)]
      exact ih
    · simp only [eraseEntries, List.filter_cons]
      rw [if_pos (by simp [hek])]
      by_cases hek' : e.1 = k'
      · rw [List.find?_cons_of_pos _ (by simp [hek']),
          List.find?_cons_of_pos _ (by simp [hek'])]
      · rw [List.find?_cons_of_neg _ (by simp [hek']),
          List.find?_cons_of_neg _ (by simp [hek'])]
        exact ih

theorem length_eraseEntries_of_mem {k : K} {es : List (K × V × ℤ)}
    (hnd : (es.map Prod.fst).Nodup) (hmem : k ∈ es.map Prod.fst) :
    (eraseEntries k es).length + 1 = es.length := by
  induction es with
  | nil => simp at hmem
  | cons e rest ih =>
    simp only [List.map_cons, List.nodup_cons] at hnd
    rcases List.mem_cons.mp hmem with h1 | h2
    · -- the head carries key k; the rest has no k entry
      have hrest : ∀ x ∈ rest, x.1 ≠ k := by
        intro x hx hxk
        refine hnd.1 ?_
        rw [← h1, ← hxk]
        exact List.mem_map_of_mem Prod.fst hx
      simp only [eraseEntries, List.filter_cons]
      rw [if_neg (by simp [h1.symm])]
      have heq := eraseEntries_of_not_mem hrest
      simp only [eraseEntries] at heq
      rw [heq]
      simp
    · -- k is in the tail; the head survives the filter
      have hek : e.1 ≠ k := by
        intro hk
        exact hnd.1 (by rw [hk]; exact h2)
      simp only [eraseEntries, List.filter_cons]
      rw [if_pos (by simp [hek])]
      simp only [List.length_cons]
      have := ih hnd.2 h2
      simp only [eraseEntries] at this
      omega

theorem evictOldest_of_lt {maxSize : ℕ} {es : List (K × V × ℤ)}
    (h : es.length < maxSize) : evictOldest maxSize es = es := by
  cases es with
  | nil => rfl
  | cons e rest => rw [evictOldest, if_neg (by omega)]

theorem evictOldest_full {maxSize : ℕ} {es : List (K × V × ℤ)}
    (hlen : es.length = maxSize) (hpos : 1 ≤ maxSize) :
    evictOldest maxSize es = es.tail := by
  cases es with
  | nil => simp at hlen; omega
  | cons e rest =>
    rw [evictOldest, if_pos (by omega)]
    exact evictOldest_of_lt (by simp at hlen; omega)

theorem mem_evictOldest {maxSize : ℕ} {es : List (K × V × ℤ)}
    {e : K × V × ℤ} (h : e ∈ evictOldest maxSize es) : e ∈ es := by
  induction es with
  | nil => simpa [evictOldest] using h
  | cons x rest ih =>
    rw [evictOldest] at h
    split at h
    · exact List.mem_cons_of_mem x (ih h)
    · exact h

theorem findEntry_eq_none_iff {c : LRUCache K V} {k : K} :
    c.findEntry k = none ↔ ∀ e ∈ c.entries, e.1 ≠ k := by
  simp [findEntry, List.find?_eq_none]

theorem set_entries_eq (c : LRUCache K V) (now : ℤ) (k : K) (v : V)
    (t : Option ℤ) :
    (c.set now k v t).entries =
      setBase c k ++ [(k, v, now + t.getD c.ttlMs)] := rfl

theorem not_mem_setBase {c : LRUCache K V} {k : K} :
    ∀ e ∈ setBase c k, e.1 ≠ k := by
  intro e he hek
  have he' := mem_evictOldest he
  by_cases hf : (c.findEntry k).isSome
  · rw [if_pos hf] at he'
    exact (mem_eraseEntries.mp he').2 hek
  · rw [if_neg hf] at he'
    have hn : c.findEntry k = none := Option.not_isSome_iff_eq_none.mp hf
    exact (findEntry_eq_none_iff.mp hn) e he' hek

/-- After `set`, the key is present at the most-recently-used end with
expiry `now + (customTtlMs ?? ttlMs)`. -/
theorem findEntry_set_self (c : LRUCache K V) (now : ℤ) (k : K) (v : V)
    (t : Option ℤ) :
    (c.set now k v t).findEntry k = some (k, v, now + t.getD c.ttlMs) := by
  show List.find? (fun e => decide (e.1 = k)) (c.set now k v t).entries = _
  rw [set_entries_eq, List.find?_append]
  have hnone : List.find? (fun e => decide (e.1 = k)) (setBase c k) = none := by
    rw [List.find?_eq_none]
    intro e he
    simpa using not_mem_setBase e he
  rw [hnone]
  simp

theorem findEntry_set_of_ne {c : LRUCache K V} {now : ℤ} {k k' : K} {v : V}
    {t : Option ℤ} (hne : k' ≠ k) (hlen : c.entries.length < c.maxSize) :
    (c.set now k v t).findEntry k' = c.findEntry k' := by
  have hlen1 :
      (if (c.findEntry k).isSome then eraseEntries k c.entries
       else c.entries).length < c.maxSize := by
    split
    · exact lt_of_le_of_lt (eraseEntries_sublist k c.entries).length_le hlen
    · exact hlen
  have hbase : setBase c k =
      (if (c.findEntry k).isSome then eraseEntries k c.entries
       else c.entries) := by
    rw [setBase, evictOldest_of_lt hlen1]
  have hlast : List.find? (fun e => decide (e.1 = k'))
      [(k, v, now + t.getD c.ttlMs)] = none := by
    rw [List.find?_eq_none]
    intro x hx
    simp only [List.mem_singleton] at hx
    subst hx
    simpa using fun h => hne h.symm
  show List.find? (fun e => decide (e.1 = k')) (c.set now k v t).entries = _
  rw [set_entries_eq, List.find?_append, hbase, hlast]
  split
  · rw [find?_eraseEntries_ne hne]
    exact Option.or_none
  · exact Option.or_none

/-- `has` returns true when the key was freshly `set` and the TTL has not
elapsed. -/
theorem has_set_self {c : LRUCache K V} {now now' : ℤ} {k : K} {v : V}
    {t : Option ℤ} (httl : now' ≤ now + t.getD c.ttlMs) :
    ((c.set now k v t).has now' k).1 = true := by
  rw [has, findEntry_set_self]
  simp only
  rw [if_neg (by omega)]

/-- Claim C9 (amended): for a cache at capacity `N = maxSize` holding `N`
unexpired entries with distinct keys, `set` under a fresh key evicts exactly
the least-recently-used entry (the head of the recency list) and appends the
new entry at the most-recently-used end; `get` on a present unexpired key
returns its value and moves it to the most-recently-used end; and — when the
cache holds at least two entries — a key that was just `get` survives the
next capacity eviction.  (With a single entry the got key is itself the
least-recently-used entry and is evicted, see the counterexample.) -/
theorem lruCache_capacity_eviction {K V : Type} [DecidableEq K]
    (c : LRUCache K V) (now : ℤ) (knew : K) (v : V)
    (hfull : c.entries.length = c.maxSize)
    (hpos : 1 ≤ c.maxSize)
    (hnd : (c.entries.map Prod.fst).Nodup)
    (hunexp : ∀ e ∈ c.entries, now ≤ e.2.2)
    (hnew : c.findEntry knew = none) :
    (c.set now knew v none).entries
        = c.entries.tail ++ [(knew, v, now + c.ttlMs)]
    ∧ (∀ k kv exp, c.findEntry k = some (k, kv, exp) →
        c.get now k = (some kv,
          { c with entries := eraseEntries k c.entries ++ [(k, kv, exp)] }))
    ∧ (∀ k kv exp, 2 ≤ c.maxSize → c.findEntry k = some (k, kv, exp) →
        ((c.get now k).2.set now knew v none).findEntry k
          = some (k, kv, exp)) := by
  have hget : ∀ k kv exp, c.findEntry k = some (k, kv, exp) →
      c.get now k = (some kv,
        { c with entries := eraseEntries k c.entries ++ [(k, kv, exp)] }) := by
    intro k kv exp hf
    have hexp : now ≤ exp := hunexp _ (List.mem_of_find?_eq_some hf)
    simp only [get, hf]
    rw [if_neg (by omega)]
  refine ⟨?_, hget, ?_⟩
  · rw [set_entries_eq]
    have hbase : setBase c knew = c.entries.tail := by
      rw [setBase, hnew]
      simp only [Option.isSome_none, Bool.false_eq_true, if_false]
      exact evictOldest_full hfull hpos
    rw [hbase]
    simp
  · intro k kv exp h2 hf
    have hexp : now ≤ exp := hunexp _ (List.mem_of_find?_eq_some hf)
    have hkmem : k ∈ c.entries.map Prod.fst := by
      have := List.mem_of_find?_eq_some hf
      exact List.mem_map_of_mem Prod.fst this
    have hkne : knew ≠ k := by
      intro h
      rw [h, hf] at hnew
      cases hnew
    rw [hget k kv exp hf]
    -- the cache after the get
    set E := eraseEntries k c.entries with hE
    have hElen : E.length + 1 = c.maxSize := by
      rw [hE, length_eraseEntries_of_mem hnd hkmem, hfull]
    have hEne : E ≠ [] := by
      intro h
      rw [h] at hElen
      simp at hElen
      omega
    have hEnk : ∀ e ∈ E, e.1 ≠ k := by
      intro e he
      exact (mem_eraseEntries.mp he).2
    have hEnknew : ∀ e ∈ E ++ [(k, kv, exp)], e.1 ≠ knew := by
      intro e he
      rcases List.mem_append.mp he with h1 | h1
      · have h1' := (eraseEntries_sublist k c.entries).mem h1
        exact findEntry_eq_none_iff.mp hnew e h1'
      · simp only [List.mem_singleton] at h1
        subst h1
        exact fun h => hkne h.symm
    -- the fresh key is still absent after the get
    have hnew' : ({ c with entries := E ++ [(k, kv, exp)] }
        : LRUCache K V).findEntry knew = none := by
      rw [findEntry_eq_none_iff]
      exact hEnknew
    rw [show (({ c with entries := E ++ [(k, kv, exp)] }
        : LRUCache K V).set now knew v none).findEntry k
        = List.find? (fun e => decide (e.1 = k))
          ((({ c with entries := E ++ [(k, kv, exp)] }
            : LRUCache K V).set now knew v none).entries) from rfl]
    rw [set_entries_eq]
    have hbase : setBase ({ c with entries := E ++ [(k, kv, exp)] }
        : LRUCache K V) knew = E.tail ++ [(k, kv, exp)] := by
      rw [setBase, hnew']
      simp only [Option.isSome_none, Bool.false_eq_true, if_false]
      rw [evictOldest_full (by simpa using hElen) hpos]
      exact List.tail_append_of_ne_nil hEne
    rw [hbase, List.find?_append, List.find?_append]
    have h1 : List.find? (fun e => decide (e.1 = k)) E.tail = none := by
      rw [List.find?_eq_none]
      intro e he
      simpa using hEnk e (List.mem_of_mem_tail he)
    have h2' : List.find? (fun e => decide (e.1 = k)) [(k, kv, exp)]
        = some (k, kv, exp) := by simp
    rw [h1, h2']
    simp [Option.or]

/-- Claim C9 counterexample: in a capacity-1 cache, a `get` on the only key
does refresh it, yet inserting a fresh key immediately afterwards still
evicts it — being most-recently-used does not protect the sole entry. -/
theorem lruCache_capacity_one_get_not_protecting :
    (((⟨1, 100, [(1, 10, 50)]⟩ : LRUCache ℕ ℕ).get 0 1).1 = some 10)
    ∧ ((((⟨1, 100, [(1, 10, 50)]⟩ : LRUCache ℕ ℕ).get 0 1).2.set 0 2 20
          none).findEntry 1 = none) := by
  decide

/-- Witness for C9 at a concrete capacity-2 cache. -/
theorem lruCache_capacity_eviction_witness :
    (((⟨2, 100, [(1, 10, 50), (2, 20, 60)]⟩ : LRUCache ℕ ℕ).set 0 3 30
        none).entries = [(2, 20, 60), (3, 30, 100)])
    ∧ ((((⟨2, 100, [(1, 10, 50), (2, 20, 60)]⟩ : LRUCache ℕ ℕ).get 0 1).2.set
          0 3 30 none).findEntry 1 = some (1, 10, 50)) := by
  have h := lruCache_capacity_eviction
    (⟨2, 100, [(1, 10, 50), (2, 20, 60)]⟩ : LRUCache ℕ ℕ) 0 3 30
    (by decide) (by decide) (by decide) (by decide) (by decide)
  refine ⟨?_, h.2.2 1 10 50 (by decide) (by decide)⟩
  rw [h.1]
  decide

end LRUCache

namespace Sniper

theorem foldl_markSniperCursor_lastSeen (bs : List (Option ℕ)) :
    ∀ s : CursorState,
      (List.foldl markSniperCursor s bs).lastSeenBlock
        = cursorTruthyMax s.lastSeenBlock bs := by
  induction bs with
  | nil => intro s; rfl
  | cons b rest ih =>
    intro s
    rw [List.foldl_cons, ih]
    cases b with
    | none => rfl
    | some v =>
      by_cases hv : v = 0
      · subst hv
        simp [markSniperCursor, cursorTruthyMax]
      · cases hs : s.lastSeenBlock with
        | none => simp [markSniperCursor, cursorTruthyMax, hs, hv]
        | some w =>
          by_cases hw : w < v
          · simp [markSniperCursor, cursorTruthyMax, hs, hv, hw,
              Nat.max_eq_right hw.le]
          · simp [markSniperCursor, cursorTruthyMax, hs, hv, hw,
              Nat.max_eq_left (Nat.le_of_not_lt hw)]

/-- Claim C6 (amended): after any call sequence the in-memory cursor equals
the maximum of its initial value and all truthy (non-null AND non-zero)
block numbers passed to `markSniperCursor`; each single call either leaves
the state unchanged or sets the cursor to a strictly larger block (setting
the dirty flag); and `flushSniperCursor` performs a durable write only when
the dirty flag is set.  (The JS guard `if (!block)` also ignores the falsy
block `0n`, so a passed block number 0 is dropped even though it is
non-null, see the counterexample.) -/
theorem sniperCursor_monotone (s : CursorState) (bs : List (Option ℕ))
    (b : Option ℕ) (ok : Bool) :
    (List.foldl markSniperCursor s bs).lastSeenBlock
        = cursorTruthyMax s.lastSeenBlock bs
    ∧ (markSniperCursor s b = s
        ∨ ∃ v, b = some v ∧ (markSniperCursor s b).lastSeenBlock = some v
            ∧ (markSniperCursor s b).dirty = true
            ∧ ∀ w, s.lastSeenBlock = some w → w < v)
    ∧ ((flushSniperCursor s ok).2 = true → s.dirty = true) := by
  refine ⟨foldl_markSniperCursor_lastSeen bs s, ?_, ?_⟩
  · cases b with
    | none => exact Or.inl rfl
    | some v =>
      by_cases hv : v = 0
      · exact Or.inl (by simp [markSniperCursor, hv])
      · cases hs : s.lastSeenBlock with
        | none =>
          refine Or.inr ⟨v, rfl, ?_, ?_, ?_⟩
          · simp [markSniperCursor, hv, hs]
          · simp [markSniperCursor, hv, hs]
          · intro w hw
            simp at hw
        | some w =>
          by_cases hw : w < v
          · refine Or.inr ⟨v, rfl, ?_, ?_, ?_⟩
            · simp [markSniperCursor, hv, hs, hw]
            · simp [markSniperCursor, hv, hs, hw]
            · intro w' hw'
              injection hw' with h
              omega
          · exact Or.inl (by simp [markSniperCursor, hv, hs, hw])
  · intro hf
    cases hd : s.dirty with
    | true => rfl
    | false => simp [flushSniperCursor, hd] at hf

/-- Claim C6 counterexample: with a null initial cursor, a call with the
non-null block number 0 leaves the cursor null, while the claimed maximum
of the initial value and all non-null block numbers passed is 0. -/
theorem sniperCursor_nonNullMax_false :
    (List.foldl markSniperCursor ⟨none, false⟩ [some 0]).lastSeenBlock = none
    ∧ cursorSpecMaxNonNull (⟨none, false⟩ : CursorState).lastSeenBlock
        [some 0] = some 0
    ∧ (List.foldl markSniperCursor ⟨none, false⟩ [some 0]).lastSeenBlock
        ≠ cursorSpecMaxNonNull (⟨none, false⟩ : CursorState).lastSeenBlock
          [some 0] := by
  decide

/-- Witness for C6 on a concrete call sequence. -/
theorem sniperCursor_monotone_witness :
    (List.foldl markSniperCursor ⟨some 5, false⟩
      [some 3, some 7, none]).lastSeenBlock = some 7 := by
  have h := sniperCursor_monotone ⟨some 5, false⟩ [some 3, some 7, none]
    (some 7) true
  rw [h.1]
  decide

end Sniper

/-- Claim C3 (code bug evidence): with no caller-supplied `shouldRetry`,
a response with HTTP status 503 makes `fetchWithRetry` fail after the very
first attempt with no backoff wait — the thrown `Error("HTTP 503 ...")` is
not a `TypeError`, so the default predicate rejects it — whereas a network
error (`TypeError`) is retried up to `maxRetries` with delays 500, 1000,
2000 ms.  This contradicts the inline comment "Retry on server errors
(5xx) and rate limits (429)" and the spec. -/
theorem fetchWithRetry_default_no_retry_on_503 :
    Retry.fetchWithRetry (fun _ => .ok 503)
        = ⟨.error (1, .httpErr 503), []⟩
    ∧ Retry.fetchWithRetry (fun _ => .error .typeErr)
        = ⟨.error (4, .typeErr), [500, 1000, 2000]⟩ := by
  constructor <;> rfl

namespace Sniper

theorem validateTokenWithRetryGo_stop {results : ℕ → ValidationResultM}
    {maxRetries attempt fuel : ℕ}
    (h : retryableResult (results attempt) = false) :
    validateTokenWithRetryGo results maxRetries attempt (fuel + 1)
      = (results attempt, []) := by
  simp [validateTokenWithRetryGo, h]

theorem validateTokenWithRetryGo_step {results : ℕ → ValidationResultM}
    {maxRetries attempt fuel : ℕ}
    (h : retryableResult (results attempt) = true)
    (hlt : attempt < maxRetries) :
    validateTokenWithRetryGo results maxRetries attempt (fuel + 1)
      = ((validateTokenWithRetryGo results maxRetries (attempt + 1) fuel).1,
         slowRetryDelay results attempt ::
           (validateTokenWithRetryGo results maxRetries (attempt + 1) fuel).2) := by
  simp [validateTokenWithRetryGo, h, hlt]

theorem validateTokenWithRetryGo_exhaust {results : ℕ → ValidationResultM}
    {maxRetries attempt fuel : ℕ}
    (h : retryableResult (results attempt) = true)
    (hge : ¬ attempt < maxRetries) :
    validateTokenWithRetryGo results maxRetries attempt (fuel + 1)
      = (⟨false, ["creator_not_found_after_retries"]⟩, []) := by
  simp [validateTokenWithRetryGo, h, hge]

/-- Complete case analysis of `validateTokenWithRetry results 3` (the
`maxRetries = 3` run scheduled by `scheduleSlowValidation`). -/
theorem validateTokenWithRetry_three_cases
    (results : ℕ → ValidationResultM) :
    (retryableResult (results 0) = false
      ∧ validateTokenWithRetry results 3 = (results 0, []))
    ∨ (retryableResult (results 0) = true
      ∧ retryableResult (results 1) = false
      ∧ validateTokenWithRetry results 3
          = (results 1, [slowRetryDelay results 0]))
    ∨ (retryableResult (results 0) = true
      ∧ retryableResult (results 1) = true
      ∧ retryableResult (results 2) = false
      ∧ validateTokenWithRetry results 3
          = (results 2, [slowRetryDelay results 0, slowRetryDelay results 1]))
    ∨ (retryableResult (results 0) = true
      ∧ retryableResult (results 1) = true
      ∧ retryableResult (results 2) = true
      ∧ retryableResult (results 3) = false
      ∧ validateTokenWithRetry results 3
          = (results 3, [slowRetryDelay results 0, slowRetryDelay results 1,
              slowRetryDelay results 2]))
    ∨ (retryableResult (results 0) = true
      ∧ retryableResult (results 1) = true
      ∧ retryableResult (results 2) = true
      ∧ retryableResult (results 3) = true
      ∧ validateTokenWithRetry results 3
          = (⟨false, ["creator_not_found_after_retries"]⟩,
             [slowRetryDelay results 0, slowRetryDelay results 1,
              slowRetryDelay results 2])) := by
  have e : validateTokenWithRetry results 3
      = validateTokenWithRetryGo results 3 0 4 := rfl
  cases h0 : retryableResult (results 0) with
  | false =>
    exact Or.inl ⟨rfl, by rw [e, validateTokenWithRetryGo_stop h0]⟩
  | true =>
    cases h1 : retryableResult (results 1) with
    | false =>
      refine Or.inr (Or.inl ⟨rfl, rfl, ?_⟩)
      rw [e, validateTokenWithRetryGo_step h0 (by omega),
        validateTokenWithRetryGo_stop h1]
    | true =>
      cases h2 : retryableResult (results 2) with
      | false =>
        refine Or.inr (Or.inr (Or.inl ⟨rfl, rfl, rfl, ?_⟩))
        rw [e, validateTokenWithRetryGo_step h0 (by omega),
          validateTokenWithRetryGo_step h1 (by omega),
          validateTokenWithRetryGo_stop h2]
      | true =>
        cases h3 : retryableResult (results 3) with
        | false =>
          refine Or.inr (Or.inr (Or.inr (Or.inl ⟨rfl, rfl, rfl, rfl, ?_⟩)))
          rw [e, validateTokenWithRetryGo_step h0 (by omega),
            validateTokenWithRetryGo_step h1 (by omega),
            validateTokenWithRetryGo_step h2 (by omega),
            validateTokenWithRetryGo_stop h3]
        | true =>
          refine Or.inr (Or.inr (Or.inr (Or.inr ⟨rfl, rfl, rfl, rfl, ?_⟩)))
          rw [e, validateTokenWithRetryGo_step h0 (by omega),
            validateTokenWithRetryGo_step h1 (by omega),
            validateTokenWithRetryGo_step h2 (by omega),
            validateTokenWithRetryGo_exhaust h3 (by omega)]

end Sniper

namespace Sniper

/-- Claim C4: the slow validation scheduled after a fast-validation failure
runs `validateTokenWithRetry(token, 3)`: (a) at most 3 retry waits occur
(at most 4 `validateToken` calls); (b) the wait after attempt `i` is the
base delay 1000·2^i ms (1s, 2s, 4s), doubled and capped at 30s when that
attempt failed with a platform 503; (c) the first attempt whose result is
neither creator-not-found nor a 503 stops the loop and is returned
immediately, after exactly one wait per preceding attempt; (d) if all four
attempts are retryable the loop returns the
`creator_not_found_after_retries` failure after the 3 waits. -/
theorem validateTokenWithRetry_backoff_schedule
    (results : ℕ → ValidationResultM) :
    ((validateTokenWithRetry results 3).2.length ≤ 3)
    ∧ (∀ i, (hi : i < (validateTokenWithRetry results 3).2.length) →
        (validateTokenWithRetry results 3).2.get ⟨i, hi⟩
          = if result503 (results i) = true
            then min (1000 * 2 ^ i * 2) 30000
            else 1000 * 2 ^ i)
    ∧ (∀ k, k ≤ 3 → retryableResult (results k) = false →
        (∀ j, j < k → retryableResult (results j) = true) →
        validateTokenWithRetry results 3
          = (results k, (List.range k).map (slowRetryDelay results)))
    ∧ ((∀ j, j ≤ 3 → retryableResult (results j) = true) →
        validateTokenWithRetry results 3
          = (⟨false, ["creator_not_found_after_retries"]⟩,
             (List.range 3).map (slowRetryDelay results))) := by
  have hdelay : ∀ i, i < 3 → slowRetryDelay results i
      = if result503 (results i) = true
        then min (1000 * 2 ^ i * 2) 30000
        else 1000 * 2 ^ i := by
    intro i hi
    interval_cases i <;>
      · unfold slowRetryDelay
        split <;> norm_num [retryDelays]
  rcases validateTokenWithRetry_three_cases results with
    ⟨h0, hout⟩ | ⟨h0, h1, hout⟩ | ⟨h0, h1, h2, hout⟩ |
    ⟨h0, h1, h2, h3, hout⟩ | ⟨h0, h1, h2, h3, hout⟩ <;>
    rw [hout] <;>
    refine ⟨by simp, ?_, ?_, ?_⟩
  -- case: attempt 0 not retryable
  · intro i hi
    simp at hi
  · intro k hk hstop hbefore
    have hk0 : k = 0 := by
      by_contra h
      have := hbefore 0 (by omega)
      rw [h0] at this
      cases this
    subst hk0
    simp
  · intro hall
    have := hall 0 (by omega)
    rw [h0] at this
    cases this
  -- case: stop at attempt 1
  · intro i hi
    simp only [List.length_cons, List.length_nil] at hi
    interval_cases i
    · simpa using hdelay 0 (by omega)
  · intro k hk hstop hbefore
    have hk1 : k = 1 := by
      interval_cases k
      · rw [h0] at hstop; cases hstop
      · rfl
      · have := hbefore 1 (by omega); rw [h1] at this; cases this
      · have := hbefore 1 (by omega); rw [h1] at this; cases this
    subst hk1
    simp [List.range_succ]
  · intro hall
    have := hall 1 (by omega)
    rw [h1] at this
    cases this
  -- case: stop at attempt 2
  · intro i hi
    simp only [List.length_cons, List.length_nil] at hi
    interval_cases i
    · simpa using hdelay 0 (by omega)
    · simpa using hdelay 1 (by omega)
  · intro k hk hstop hbefore
    have hk2 : k = 2 := by
      interval_cases k
      · rw [h0] at hstop; cases hstop
      · rw [h1] at hstop; cases hstop
      · rfl
      · have := hbefore 2 (by omega); rw [h2] at this; cases this
    subst hk2
    simp [List.range_succ]
  · intro hall
    have := hall 2 (by omega)
    rw [h2] at this
    cases this
  -- case: stop at attempt 3
  · intro i hi
    simp only [List.length_cons, List.length_nil] at hi
    interval_cases i
    · simpa using hdelay 0 (by omega)
    · simpa using hdelay 1 (by omega)
    · simpa using hdelay 2 (by omega)
  · intro k hk hstop hbefore
    have hk3 : k = 3 := by
      interval_cases k
      · rw [h0] at hstop; cases hstop
      · rw [h1] at hstop; cases hstop
      · rw [h2] at hstop; cases hstop
      · rfl
    subst hk3
    simp [List.range_succ]
  · intro hall
    have := hall 3 (by omega)
    rw [h3] at this
    cases this
  -- case: all four attempts retryable
  · intro i hi
    simp only [List.length_cons, List.length_nil] at hi
    interval_cases i
    · simpa using hdelay 0 (by omega)
    · simpa using hdelay 1 (by omega)
    · simpa using hdelay 2 (by omega)
  · intro k hk hstop hbefore
    interval_cases k
    · rw [h0] at hstop; cases hstop
    · rw [h1] at hstop; cases hstop
    · rw [h2] at hstop; cases hstop
    · rw [h3] at hstop; cases hstop
  · intro hall
    simp [List.range_succ]

/-- Witness for C4: attempt 0 fails with creator-not-found (wait 1s),
attempt 1 fails with a 503 (wait doubled to 4s), attempt 2 succeeds and is
returned immediately. -/
theorem validateTokenWithRetry_backoff_schedule_witness :
    validateTokenWithRetry
        (fun i => if i = 0 then ⟨false, ["creator_not_found"]⟩
          else if i = 1 then ⟨false, ["api_error_503"]⟩
          else ⟨true, ([] : List String)⟩) 3
      = (⟨true, []⟩, [1000, 4000]) := by
  have h := (validateTokenWithRetry_backoff_schedule
      (fun i => if i = 0 then ⟨false, ["creator_not_found"]⟩
        else if i = 1 then ⟨false, ["api_error_503"]⟩
        else ⟨true, ([] : List String)⟩)).2.2.1 2 (by omega) (by decide)
      (by intro j hj; interval_cases j <;> decide)
  rw [h]
  decide

end Sniper

namespace LRUCache

theorem has_snd_cases {K V : Type} [DecidableEq K]
    (c : LRUCache K V) (now : ℤ) (k : K) :
    (c.has now k).2 = c ∨ (c.has now k).2 = c.del k := by
  unfold has
  rcases hf : c.findEntry k with _ | ⟨k0, v0, exp⟩
  · exact Or.inl rfl
  · dsimp only
    by_cases hx : exp < now
    · rw [if_pos hx]
      exact Or.inr rfl
    · rw [if_neg hx]
      exact Or.inl rfl

theorem ttlMs_has_snd {K V : Type} [DecidableEq K]
    (c : LRUCache K V) (now : ℤ) (k : K) :
    ((c.has now k).2).ttlMs = c.ttlMs := by
  rcases has_snd_cases c now k with h | h <;> rw [h] <;> rfl

end LRUCache

namespace Sniper

theorem mapLookup_mapSet_self (m : List (String × ℕ × ℤ)) (k : String)
    (v : ℕ × ℤ) : mapLookup (mapSet m k v) k = some v := by
  induction m with
  | nil => simp [mapSet, mapLookup]
  | cons e rest ih =>
    by_cases he : e.1 = k
    · simp [mapSet, mapLookup, he]
    · simp [mapSet, mapLookup, he, ih]

/-- A call that finds the token address already marked passes immediately
and leaves the creator counters untouched. -/
theorem checkCreatorSpamAndRecord_seen {now : ℤ} {st : SpamState}
    {ci : CreatorInfo} {addr : String}
    (h : (st.spamCountedTokens.has now (lowerString addr)).1 = true) :
    checkCreatorSpamAndRecord now st ci addr
      = ((true, none),
         { st with
            spamCountedTokens := (st.spamCountedTokens.has now (lowerString addr)).2 }) := by
  unfold checkCreatorSpamAndRecord
  simp only [h, if_true]

/-- Each call either leaves the creator map untouched (already-marked
token, unknown creator key, or the spam-limit failure) or marks the token
address in the spam LRU. -/
theorem checkCreatorSpamAndRecord_state (now : ℤ) (st : SpamState)
    (ci : CreatorInfo) (addr : String) :
    ((checkCreatorSpamAndRecord now st ci addr).2.creatorTokenCount
        = st.creatorTokenCount
      ∧ (checkCreatorSpamAndRecord now st ci addr).2.spamCountedTokens
        = (st.spamCountedTokens.has now (lowerString addr)).2)
    ∨ (checkCreatorSpamAndRecord now st ci addr).2.spamCountedTokens
        = ((st.spamCountedTokens.has now (lowerString addr)).2).set now
            (lowerString addr) true none := by
  unfold checkCreatorSpamAndRecord
  dsimp only
  split
  · exact Or.inl ⟨rfl, rfl⟩
  · split
    · exact Or.inl ⟨rfl, rfl⟩
    · split
      · exact Or.inr rfl
      · split
        · exact Or.inr rfl
        · split
          · exact Or.inl ⟨rfl, rfl⟩
          · exact Or.inr rfl

theorem mapLookup_mapSet_ne {k ck : String} (hk : k ≠ ck)
    (m : List (String × ℕ × ℤ)) (v : ℕ × ℤ) :
    mapLookup (mapSet m ck v) k = mapLookup m k := by
  induction m with
  | nil => simp [mapSet, mapLookup, Ne.symm hk]
  | cons e rest ih =>
    by_cases he : e.1 = ck
    · simp [mapSet, mapLookup, he, Ne.symm hk]
    · simp [mapSet, mapLookup, he, ih]

theorem countOf_mapSet (m : List (String × ℕ × ℤ)) (ck : String)
    (v : ℕ × ℤ) (k : String) :
    countOf (mapSet m ck v) k = if k = ck then v.1 else countOf m k := by
  by_cases hk : k = ck
  · subst hk
    simp [countOf, mapLookup_mapSet_self]
  · simp [countOf, mapLookup_mapSet_ne hk, hk]

/-- The creator-count map written by one call: either untouched, reset to
1 for the creator key, or incremented for the creator key. -/
theorem checkCreatorSpamAndRecord_count_cases (now : ℤ) (st : SpamState)
    (ci : CreatorInfo) (addr : String) :
    (checkCreatorSpamAndRecord now st ci addr).2.creatorTokenCount
        = st.creatorTokenCount
    ∨ (checkCreatorSpamAndRecord now st ci addr).2.creatorTokenCount
        = mapSet st.creatorTokenCount (creatorKeyOf ci) (1, now)
    ∨ ∃ count firstSeen,
        mapLookup st.creatorTokenCount (creatorKeyOf ci)
            = some (count, firstSeen)
        ∧ (checkCreatorSpamAndRecord now st ci addr).2.creatorTokenCount
            = mapSet st.creatorTokenCount (creatorKeyOf ci)
                (count + 1, firstSeen) := by
  unfold checkCreatorSpamAndRecord
  dsimp only
  split
  · exact Or.inl rfl
  · split
    · exact Or.inl rfl
    · split
      · exact Or.inr (Or.inl rfl)
      · next count firstSeen heq =>
        split
        · exact Or.inr (Or.inl rfl)
        · split
          · exact Or.inl rfl
          · exact Or.inr (Or.inr ⟨count, firstSeen, heq, rfl⟩)

/-- One call increments the count recorded for a creator key by at most
one. -/
theorem creatorCount_call_le (now : ℤ) (st : SpamState) (ci : CreatorInfo)
    (addr : String) (k : String) :
    creatorCount (checkCreatorSpamAndRecord now st ci addr).2 k
      ≤ creatorCount st k + 1 := by
  rcases checkCreatorSpamAndRecord_count_cases now st ci addr with
    h | h | ⟨count, firstSeen, heq, h⟩ <;>
    rw [creatorCount, h]
  · exact Nat.le_succ _
  · rw [countOf_mapSet]
    split
    · omega
    · exact Nat.le_succ _
  · rw [countOf_mapSet]
    split
    · next hk =>
      subst hk
      rw [creatorCount]
      unfold countOf
      rw [heq]
    · exact Nat.le_succ _

/-- Claim C7: two calls of `checkCreatorSpamAndRecord` with the same token
address within the rolling 24-hour window increment the per-creator
counter at most once net; and whenever the token address is found marked,
a call returns pass and leaves the creator counters untouched. -/
theorem checkCreatorSpamAndRecord_idempotent
    (st : SpamState) (ci : CreatorInfo) (addr : String) (now1 now2 : ℤ)
    (httl : st.spamCountedTokens.ttlMs = CREATOR_WINDOW_MS)
    (hwin : now2 ≤ now1 + CREATOR_WINDOW_MS) :
    creatorCount (checkCreatorSpamAndRecord now2
        (checkCreatorSpamAndRecord now1 st ci addr).2 ci addr).2
        (creatorKeyOf ci)
      ≤ creatorCount st (creatorKeyOf ci) + 1
    ∧ (∀ (now3 : ℤ) (st3 : SpamState),
        (st3.spamCountedTokens.has now3 (lowerString addr)).1 = true →
        (checkCreatorSpamAndRecord now3 st3 ci addr).1.1 = true
        ∧ (checkCreatorSpamAndRecord now3 st3 ci addr).2.creatorTokenCount
            = st3.creatorTokenCount) := by
  have hmarked : ∀ (now3 : ℤ) (st3 : SpamState),
      (st3.spamCountedTokens.has now3 (lowerString addr)).1 = true →
      (checkCreatorSpamAndRecord now3 st3 ci addr).1.1 = true
      ∧ (checkCreatorSpamAndRecord now3 st3 ci addr).2.creatorTokenCount
          = st3.creatorTokenCount := by
    intro now3 st3 h
    rw [checkCreatorSpamAndRecord_seen h]
    exact ⟨rfl, rfl⟩
  refine ⟨?_, hmarked⟩
  rcases checkCreatorSpamAndRecord_state now1 st ci addr with ⟨hcnt, _⟩ | hspam
  · -- the first call did not touch the creator map
    have h2 := creatorCount_call_le now2
      (checkCreatorSpamAndRecord now1 st ci addr).2 ci addr (creatorKeyOf ci)
    have h1 : creatorCount (checkCreatorSpamAndRecord now1 st ci addr).2
        (creatorKeyOf ci) = creatorCount st (creatorKeyOf ci) := by
      rw [creatorCount, hcnt, creatorCount]
    omega
  · -- the first call marked the token: the second call is a no-op on counts
    have hhas : (((checkCreatorSpamAndRecord now1 st ci addr).2).spamCountedTokens.has
        now2 (lowerString addr)).1 = true := by
      rw [hspam]
      apply LRUCache.has_set_self
      simpa [LRUCache.ttlMs_has_snd, httl] using hwin
    have h2 := hmarked now2 _ hhas
    have h1 := creatorCount_call_le now1 st ci addr (creatorKeyOf ci)
    have heq : creatorCount (checkCreatorSpamAndRecord now2
        (checkCreatorSpamAndRecord now1 st ci addr).2 ci addr).2
        (creatorKeyOf ci)
        = creatorCount (checkCreatorSpamAndRecord now1 st ci addr).2
            (creatorKeyOf ci) := by
      rw [creatorCount, h2.2, creatorCount]
    omega

/-- Witness for C7: creator FID 99 validates the same token address twice,
100 ms apart, from an empty spam state; the counter rises to 1, not 2. -/
theorem checkCreatorSpamAndRecord_idempotent_witness :
    creatorCount (checkCreatorSpamAndRecord 100
        (checkCreatorSpamAndRecord 0
          ⟨[], ⟨50000, CREATOR_WINDOW_MS, []⟩⟩
          ⟨some 99, none, none, none, none, none⟩ "0xAB").2
        ⟨some 99, none, none, none, none, none⟩ "0xAB").2
        (creatorKeyOf ⟨some 99, none, none, none, none, none⟩)
      ≤ creatorCount ⟨[], ⟨50000, CREATOR_WINDOW_MS, []⟩⟩
          (creatorKeyOf ⟨some 99, none, none, none, none, none⟩) + 1 :=
  (checkCreatorSpamAndRecord_idempotent
    ⟨[], ⟨50000, CREATOR_WINDOW_MS, []⟩⟩
    ⟨some 99, none, none, none, none, none⟩ "0xAB" 0 100
    rfl (by decide)).1

end Sniper

namespace Sniper

theorem keys_nodup_mem_unique {α : Type} {l : List (String × α)}
    (hnd : (l.map Prod.fst).Nodup) {a : String} {p q : α}
    (hp : (a, p) ∈ l) (hq : (a, q) ∈ l) : p = q := by
  induction l with
  | nil => cases hp
  | cons e rest ih =>
    simp only [List.map_cons, List.nodup_cons] at hnd
    rcases List.mem_cons.mp hp with h1 | h1 <;>
      rcases List.mem_cons.mp hq with h2 | h2
    · exact congrArg Prod.snd (h1.trans h2.symm)
    · exfalso
      apply hnd.1
      have hmm : a ∈ List.map Prod.fst rest :=
        List.mem_map_of_mem Prod.fst h2
      rw [← h1]
      exact hmm
    · exfalso
      apply hnd.1
      have hmm : a ∈ List.map Prod.fst rest :=
        List.mem_map_of_mem Prod.fst h1
      rw [← h2]
      exact hmm
    · exact ih hnd.2 h1 h2

theorem scanEntry_kept_fst {now : ℤ} {fetchLiq : String → Option ℚ}
    {a : String} {p : PendingTokenM} {ke : String × PendingTokenM}
    (h : (scanEntry now fetchLiq a p).1 = some ke) : ke.1 = a := by
  unfold scanEntry at h
  split at h
  · exact Option.noConfusion h
  · split at h
    · injection h with h2
      rw [← h2]
    · split at h
      · injection h with h2
        rw [← h2]
      · split at h
        · exact Option.noConfusion h
        · injection h with h2
          rw [← h2]

/-- Claim C5: on a scan tick, an entry whose age exceeds
`WATCHLIST_MAX_AGE_MS` is removed from the watchlist without any liquidity
fetch and without the alert/buy dispatcher being invoked for it; and every
dispatched address on a tick comes from the pending map, so a removed
entry can never be dispatched on a later tick either. -/
theorem checkWatchlistLiquidity_expires_silently
    (now : ℤ) (fetchLiq : String → Option ℚ)
    (pending : List (String × PendingTokenM)) (addr : String)
    (p : PendingTokenM)
    (hnd : (pending.map Prod.fst).Nodup)
    (hmem : (addr, p) ∈ pending)
    (hexp : WATCHLIST_MAX_AGE_MS < now - p.addedAt) :
    addr ∉ ((checkWatchlistLiquidity now fetchLiq pending).1.map Prod.fst)
    ∧ addr ∉ (checkWatchlistLiquidity now fetchLiq pending).2.1
    ∧ addr ∉ (checkWatchlistLiquidity now fetchLiq pending).2.2
    ∧ (∀ a, a ∈ (checkWatchlistLiquidity now fetchLiq pending).2.1 →
        a ∈ pending.map Prod.fst) := by
  have hscan : scanEntry now fetchLiq addr p = (none, false, false) := by
    unfold scanEntry
    rw [if_pos hexp]
  refine ⟨?_, ?_, ?_, ?_⟩
  · intro h
    simp only [checkWatchlistLiquidity] at h
    rw [List.mem_map] at h
    obtain ⟨ke, hke, hfst⟩ := h
    rw [List.mem_filterMap] at hke
    obtain ⟨e, he, hsome⟩ := hke
    have hfst2 : e.1 = addr := by rw [← scanEntry_kept_fst hsome, hfst]
    have hep : e.2 = p := by
      apply keys_nodup_mem_unique hnd _ hmem
      rw [← hfst2]
      exact he
    rw [hfst2, hep, hscan] at hsome
    exact Option.noConfusion hsome
  · intro h
    simp only [checkWatchlistLiquidity] at h
    rw [List.mem_map] at h
    obtain ⟨e, he, hfst⟩ := h
    rw [List.mem_filter] at he
    have hep : e.2 = p := by
      apply keys_nodup_mem_unique hnd _ hmem
      rw [← hfst]
      exact he.1
    have hd := he.2
    rw [hfst, hep, hscan] at hd
    cases hd
  · intro h
    simp only [checkWatchlistLiquidity] at h
    rw [List.mem_map] at h
    obtain ⟨e, he, hfst⟩ := h
    rw [List.mem_filter] at he
    have hep : e.2 = p := by
      apply keys_nodup_mem_unique hnd _ hmem
      rw [← hfst]
      exact he.1
    have hd := he.2
    rw [hfst, hep, hscan] at hd
    cases hd
  · intro a ha
    simp only [checkWatchlistLiquidity] at ha
    rw [List.mem_map] at ha ⊢
    obtain ⟨e, he, hfst⟩ := ha
    exact ⟨e, (List.mem_filter.mp he).1, hfst⟩

/-- Witness for C5: entry "a" was added at t = 0 and never saw liquidity;
at t = 4,000,000 ms (beyond the 1-hour max age) the tick removes it
without fetching or dispatching, while fresh entry "b" is fetched. -/
theorem checkWatchlistLiquidity_expires_silently_witness :
    "a" ∉ ((checkWatchlistLiquidity 4000000 (fun _ => some 6000)
        [("a", ⟨0, 0, 0⟩), ("b", ⟨3999000, 0, 0⟩)]).1.map Prod.fst)
    ∧ "a" ∉ (checkWatchlistLiquidity 4000000 (fun _ => some 6000)
        [("a", ⟨0, 0, 0⟩), ("b", ⟨3999000, 0, 0⟩)]).2.1
    ∧ "a" ∉ (checkWatchlistLiquidity 4000000 (fun _ => some 6000)
        [("a", ⟨0, 0, 0⟩), ("b", ⟨3999000, 0, 0⟩)]).2.2
    ∧ (∀ a, a ∈ (checkWatchlistLiquidity 4000000 (fun _ => some 6000)
          [("a", ⟨0, 0, 0⟩), ("b", ⟨3999000, 0, 0⟩)]).2.1 →
        a ∈ [("a", (⟨0, 0, 0⟩ : PendingTokenM)),
             ("b", ⟨3999000, 0, 0⟩)].map Prod.fst) :=
  checkWatchlistLiquidity_expires_silently 4000000 (fun _ => some 6000)
    [("a", ⟨0, 0, 0⟩), ("b", ⟨3999000, 0, 0⟩)] "a" ⟨0, 0, 0⟩
    (by decide) (by decide) (by decide)

end Sniper

namespace LRUCache

variable {K V : Type} [DecidableEq K]

theorem has_snd_of_true {c : LRUCache K V} {now : ℤ} {k : K}
    (h : (c.has now k).1 = true) : (c.has now k).2 = c := by
  unfold has at h ⊢
  rcases hf : c.findEntry k with _ | ⟨k0, v0, exp⟩
  · rw [hf] at h
  · rw [hf] at h
    dsimp only at h ⊢
    by_cases hx : exp < now
    · rw [if_pos hx] at h
      simp at h
    · rw [if_neg hx]

theorem has_fst_of_findEntry {c : LRUCache K V} {now : ℤ} {k : K}
    {v : V} {exp : ℤ} (hf : c.findEntry k = some (k, v, exp))
    (hx : now ≤ exp) : (c.has now k).1 = true := by
  unfold has
  rw [hf]
  dsimp only
  rw [if_neg (by omega)]

theorem has_fst_congr {c c' : LRUCache K V} {now : ℤ} {k : K}
    (h : c'.findEntry k = c.findEntry k) :
    (c'.has now k).1 = (c.has now k).1 := by
  unfold has
  rw [h]
  rcases c.findEntry k with _ | ⟨k0, v0, exp⟩
  · rfl
  · dsimp only
    split <;> rfl

theorem findEntry_has_snd_ne {c : LRUCache K V} {now : ℤ} {k k' : K}
    (hne : k' ≠ k) :
    ((c.has now k).2).findEntry k' = c.findEntry k' := by
  rcases has_snd_cases c now k with h | h
  · rw [h]
  · rw [h]
    unfold del findEntry
    exact find?_eraseEntries_ne hne _

theorem length_has_snd_le (c : LRUCache K V) (now : ℤ) (k : K) :
    ((c.has now k).2).entries.length ≤ c.entries.length := by
  rcases has_snd_cases c now k with h | h
  · rw [h]
  · rw [h]
    exact (eraseEntries_sublist k c.entries).length_le

theorem maxSize_has_snd (c : LRUCache K V) (now : ℤ) (k : K) :
    ((c.has now k).2).maxSize = c.maxSize := by
  rcases has_snd_cases c now k with h | h <;> rw [h] <;> rfl

theorem evictOldest_length_le (m : ℕ) (es : List (K × V × ℤ)) :
    (evictOldest m es).length ≤ es.length := by
  induction es with
  | nil => simp [evictOldest]
  | cons e rest ih =>
    rw [evictOldest]
    split
    · exact le_trans ih (by simp)
    · exact le_refl _

theorem length_set_le (c : LRUCache K V) (now : ℤ) (k : K) (v : V)
    (t : Option ℤ) :
    ((c.set now k v t).entries).length ≤ c.entries.length + 1 := by
  rw [set_entries_eq, List.length_append]
  have hbase : (setBase c k).length ≤ c.entries.length := by
    refine le_trans (evictOldest_length_le _ _) ?_
    split
    · exact (eraseEntries_sublist k c.entries).length_le
    · exact le_refl _
  simp only [List.length_cons, List.length_nil]
  omega

end LRUCache

namespace Sniper

theorem processLogs_cons_seen {now : ℤ} {st : IngestState} {log : LogM}
    {rest : List LogM}
    (h : (st.processedEventIds.has now (getEventId log)).1 = true) :
    processLogs now st (log :: rest)
      = processLogs now
          { st with processedEventIds :=
              (st.processedEventIds.has now (getEventId log)).2 } rest := by
  simp only [processLogs]
  rw [if_pos h]

theorem processLogs_cons_new {now : ℤ} {st : IngestState} {log : LogM}
    {rest : List LogM}
    (h : (st.processedEventIds.has now (getEventId log)).1 = false) :
    processLogs now st (log :: rest)
      = ((processLogs now
            { processedEventIds :=
                (st.processedEventIds.has now (getEventId log)).2.set now
                  (getEventId log) true none,
              cursor := markSniperCursor st.cursor log.blockNumber }
            rest).1,
         log :: (processLogs now
            { processedEventIds :=
                (st.processedEventIds.has now (getEventId log)).2.set now
                  (getEventId log) true none,
              cursor := markSniperCursor st.cursor log.blockNumber }
            rest).2) := by
  simp only [processLogs]
  rw [if_neg (by rw [h]; exact Bool.false_ne_true)]

end Sniper

namespace Sniper

/-- Dedup invariant of the per-batch ingestion loop at time `now`:
the cache configuration is preserved and growth is bounded by the batch
size; a DedupKey already marked is never dispatched and an unmarked key
occurring in the batch is dispatched exactly once; unexpired marks
survive the batch; and a newly marked key ends up with expiry
`now + ttlMs`. -/
theorem processLogs_dedup_invariant (now : ℤ) (logs : List LogM) :
    ∀ (st : IngestState) (id : String),
      0 ≤ st.processedEventIds.ttlMs →
      st.processedEventIds.entries.length + logs.length
          ≤ st.processedEventIds.maxSize →
      ((processLogs now st logs).1.processedEventIds.ttlMs
          = st.processedEventIds.ttlMs
        ∧ (processLogs now st logs).1.processedEventIds.maxSize
          = st.processedEventIds.maxSize
        ∧ (processLogs now st logs).1.processedEventIds.entries.length
          ≤ st.processedEventIds.entries.length + logs.length)
      ∧ ((processLogs now st logs).2.countP
            (fun l => decide (getEventId l = id))
          = if (st.processedEventIds.has now id).1 = true then 0
            else if logs.any (fun l => decide (getEventId l = id)) then 1
            else 0)
      ∧ (∀ v exp, st.processedEventIds.findEntry id = some (id, v, exp) →
          now ≤ exp →
          (processLogs now st logs).1.processedEventIds.findEntry id
            = some (id, v, exp))
      ∧ ((st.processedEventIds.has now id).1 = false →
          logs.any (fun l => decide (getEventId l = id)) = true →
          (processLogs now st logs).1.processedEventIds.findEntry id
            = some (id, true, now + st.processedEventIds.ttlMs)) := by
  induction logs with
  | nil =>
    intro st id _ _
    refine ⟨⟨rfl, rfl, by simp [processLogs]⟩, by simp [processLogs], ?_, ?_⟩
    · intro v exp hf _
      exact hf
    · intro _ habs
      simp at habs
  | cons log rest ih =>
    intro st id httl hcap
    by_cases hseen :
        (st.processedEventIds.has now (getEventId log)).1 = true
    · -- the DedupKey of the head log is already marked: skipped
      have hstq : { st with processedEventIds :=
          (st.processedEventIds.has now (getEventId log)).2 } = st := by
        rw [LRUCache.has_snd_of_true hseen]
      rw [processLogs_cons_seen hseen, hstq]
      have IH := ih st id httl
        (by simp only [List.length_cons] at hcap; omega)
      refine ⟨⟨IH.1.1, IH.1.2.1, ?_⟩, ?_, IH.2.2.1, ?_⟩
      · have := IH.1.2.2
        simp only [List.length_cons]
        omega
      · rw [IH.2.1]
        by_cases hid : getEventId log = id
        · rw [← hid, hseen]
          simp
        · simp [List.any_cons, hid]
      · intro hfalse hany
        by_cases hid : getEventId log = id
        · rw [← hid, hseen] at hfalse
          cases hfalse
        · refine IH.2.2.2 hfalse ?_
          simp only [List.any_cons, Bool.or_eq_true] at hany
          rcases hany with h | h
          · simp at h
            exact absurd h hid
          · exact h
    · -- fresh DedupKey: marked synchronously before dispatch
      have hseenF :
          (st.processedEventIds.has now (getEventId log)).1 = false :=
        Bool.eq_false_iff.mpr hseen
      rw [processLogs_cons_new hseenF]
      -- the post-mark ingestion state
      set c := st.processedEventIds with hc
      set hid := getEventId log with hhid
      set has2 := (c.has now hid).2 with hhas2
      set c1 := has2.set now hid true none with hc1
      set st1 : IngestState :=
        { processedEventIds := c1,
          cursor := markSniperCursor st.cursor log.blockNumber } with hst1
      have f1 : c1.ttlMs = c.ttlMs := LRUCache.ttlMs_has_snd c now hid
      have f2 : c1.maxSize = c.maxSize := LRUCache.maxSize_has_snd c now hid
      have flen : has2.entries.length ≤ c.entries.length := by
        have h0 := LRUCache.length_has_snd_le c now hid
        rw [← hhas2] at h0
        exact h0
      have f3 : c1.entries.length ≤ c.entries.length + 1 := by
        have h0 := LRUCache.length_set_le has2 now hid true none
        rw [← hc1] at h0
        omega
      have hcap1 : c1.entries.length + rest.length ≤ c1.maxSize := by
        simp only [List.length_cons] at hcap
        rw [f2]
        omega
      have httl1 : 0 ≤ c1.ttlMs := by rw [f1]; exact httl
      have httlsnd : has2.ttlMs = c.ttlMs := by
        have h0 := LRUCache.ttlMs_has_snd c now hid
        rw [← hhas2] at h0
        exact h0
      have f6 : c1.findEntry hid = some (hid, true, now + c.ttlMs) := by
        rw [hc1, LRUCache.findEntry_set_self, Option.getD_none, httlsnd]
      have f7 : ∀ k', k' ≠ hid → c1.findEntry k' = c.findEntry k' := by
        intro k' hne
        have hsz : has2.maxSize = c.maxSize := by
          have h0 := LRUCache.maxSize_has_snd c now hid
          rw [← hhas2] at h0
          exact h0
        rw [hc1, LRUCache.findEntry_set_of_ne hne ?_]
        · rw [hhas2, LRUCache.findEntry_has_snd_ne hne]
        · simp only [List.length_cons] at hcap
          omega
      have IH := ih st1 id httl1 hcap1
      have hfields : st1.processedEventIds = c1 := rfl
      rw [hfields] at IH
      refine ⟨⟨?_, ?_, ?_⟩, ?_, ?_, ?_⟩
      · rw [IH.1.1, f1]
      · rw [IH.1.2.1, f2]
      · have h0 := IH.1.2.2
        simp only [List.length_cons]
        omega
      · -- dispatch count
        rw [List.countP_cons, IH.2.1]
        by_cases hid2 : hid = id
        · -- the head log carries the key: dispatched here, marked for rest
          have hf6id : c1.findEntry id = some (id, true, now + c.ttlMs) := by
            rw [← hid2]
            exact f6
          have hhastrue : (c1.has now id).1 = true :=
            LRUCache.has_fst_of_findEntry hf6id (by omega)
          have hcfalse : (c.has now id).1 = false := by
            rw [← hid2]
            exact hseenF
          rw [hhastrue, hcfalse]
          simp [← hhid, hid2]
        · have hcongr : (c1.has now id).1 = (c.has now id).1 :=
            LRUCache.has_fst_congr (f7 id (fun h => hid2 h.symm))
          rw [hcongr]
          have hhead : (decide (getEventId log = id)) = false := by
            rw [← hhid]
            simp [hid2]
          simp only [List.any_cons, ← hhid, hhead]
          simp
      · -- unexpired marks survive
        intro v exp hf hx
        by_cases hid2 : hid = id
        · exfalso
          apply hseen
          have hf2 : c.findEntry hid = some (hid, v, exp) := by
            rw [hid2]
            exact hf
          exact LRUCache.has_fst_of_findEntry hf2 hx
        · have hf1 : c1.findEntry id = some (id, v, exp) := by
            rw [f7 id (fun h => hid2 h.symm)]
            exact hf
          exact IH.2.2.1 v exp hf1 hx
      · -- a key of this batch ends marked with expiry now + ttl
        intro hfalse hany
        by_cases hid2 : hid = id
        · have hf1 : c1.findEntry id = some (id, true, now + c.ttlMs) := by
            rw [← hid2]
            exact f6
          exact IH.2.2.1 true (now + c.ttlMs) hf1 (by omega)
        · have hcongr : (c1.has now id).1 = (c.has now id).1 :=
            LRUCache.has_fst_congr (f7 id (fun h => hid2 h.symm))
          have hany2 : rest.any (fun l => decide (getEventId l = id))
              = true := by
            simp only [List.any_cons, Bool.or_eq_true] at hany
            rcases hany with h | h
            · simp only [decide_eq_true_eq, ← hhid] at h
              exact absurd h hid2
            · exact h
          have h0 := IH.2.2.2 (by rw [hcongr]; exact hfalse) hany2
          rw [h0, f1]

end Sniper

namespace Sniper

/-- Claim C2: submitting the same log twice — in one batch or across two
batches (live subscription or backfill), within the dedup TTL and within
cache capacity — produces exactly one handler dispatch: the DedupKey is
marked synchronously during the batch walk, so every later occurrence is
skipped. -/
theorem processLogs_dedup_exactly_one
    (st : IngestState) (logs1 logs2 : List LogM) (L : LogM) (now1 now2 : ℤ)
    (httl : 0 ≤ st.processedEventIds.ttlMs)
    (hwin : now2 ≤ now1 + st.processedEventIds.ttlMs)
    (hcap : st.processedEventIds.entries.length + logs1.length
        + logs2.length ≤ st.processedEventIds.maxSize)
    (hmem : logs1.any (fun l => decide (getEventId l = getEventId L))
        = true)
    (hnew : (st.processedEventIds.has now1 (getEventId L)).1 = false) :
    (processLogs now1 st logs1).2.countP
        (fun l => decide (getEventId l = getEventId L))
      + (processLogs now2 (processLogs now1 st logs1).1 logs2).2.countP
          (fun l => decide (getEventId l = getEventId L))
      = 1 := by
  have I1 := processLogs_dedup_invariant now1 logs1 st (getEventId L) httl
    (by omega)
  have hc1 : (processLogs now1 st logs1).2.countP
      (fun l => decide (getEventId l = getEventId L)) = 1 := by
    rw [I1.2.1, hnew]
    simp [hmem]
  have hmark := I1.2.2.2 hnew hmem
  have htrue : ((processLogs now1 st logs1).1.processedEventIds.has now2
      (getEventId L)).1 = true :=
    LRUCache.has_fst_of_findEntry hmark (by omega)
  have I2 := processLogs_dedup_invariant now2 logs2
    (processLogs now1 st logs1).1 (getEventId L)
    (by rw [I1.1.1]; exact httl)
    (by rw [I1.1.2.1]; have := I1.1.2.2; omega)
  have hc2 : (processLogs now2 (processLogs now1 st logs1).1 logs2).2.countP
      (fun l => decide (getEventId l = getEventId L)) = 0 := by
    rw [I2.2.1, htrue]
    simp
  omega

/-- Witness for C2: the same log appears twice in a live batch and once
again in a later backfill batch 1 s later; exactly one dispatch occurs. -/
theorem processLogs_dedup_exactly_one_witness :
    (processLogs 0 ⟨⟨50000, 1800000, []⟩, ⟨none, false⟩⟩
        [⟨some "0xt", some 1, none, none, some "0xF", some 10⟩,
         ⟨some "0xt", some 1, none, none, some "0xF", some 10⟩]).2.countP
        (fun l => decide (getEventId l
          = getEventId ⟨some "0xt", some 1, none, none, some "0xF", some 10⟩))
      + (processLogs 1000
          (processLogs 0 ⟨⟨50000, 1800000, []⟩, ⟨none, false⟩⟩
            [⟨some "0xt", some 1, none, none, some "0xF", some 10⟩,
             ⟨some "0xt", some 1, none, none, some "0xF", some 10⟩]).1
          [⟨some "0xt", some 1, none, none, some "0xF", some 10⟩]).2.countP
          (fun l => decide (getEventId l
            = getEventId ⟨some "0xt", some 1, none, none, some "0xF", some 10⟩))
      = 1 :=
  processLogs_dedup_exactly_one ⟨⟨50000, 1800000, []⟩, ⟨none, false⟩⟩
    [⟨some "0xt", some 1, none, none, some "0xF", some 10⟩,
     ⟨some "0xt", some 1, none, none, some "0xF", some 10⟩]
    [⟨some "0xt", some 1, none, none, some "0xF", some 10⟩]
    ⟨some "0xt", some 1, none, none, some "0xF", some 10⟩ 0 1000
    (by decide) (by decide) (by decide) (by decide) (by decide)

end Sniper

namespace Sniper

/-- Claim C10 counterexample: a log carrying neither `logIndex` nor `index`
but a nested `log.logIndex = 7` does NOT map to the `"unknown"` dedup key —
the third fallback `anyLog.log?.logIndex` picks up the nested index. -/
theorem getEventId_nested_index_not_unknown :
    getEventId ⟨some "0xab", none, none, some 7, some "0xCD", none⟩
        = "0xab:7:0xcd"
    ∧ getEventId ⟨some "0xab", none, none, some 7, some "0xCD", none⟩
        ≠ "0xab:unknown:0xcd" := by
  constructor
  · decide
  · decide

/-- Claim C10 (amended): when a log carries none of `logIndex`, `index` or
a nested `log.logIndex`, `getEventId` substitutes the literal `"unknown"`;
two distinct such logs sharing the transaction hash and (lowercased)
emitting address therefore collide on the dedup key, and in a batch
containing both only the first is dispatched — the second handler is never
invoked. -/
theorem getEventId_unknown_collision
    (l1 l2 : LogM)
    (h1a : l1.logIndex = none) (h1b : l1.index = none)
    (h1c : l1.nestedLogIndex = none)
    (h2a : l2.logIndex = none) (h2b : l2.index = none)
    (h2c : l2.nestedLogIndex = none)
    (htx : l1.transactionHash = l2.transactionHash)
    (haddr : lowerString (l1.address.getD "")
        = lowerString (l2.address.getD "")) :
    getEventId l1
        = l1.transactionHash.getD "unknown" ++ ":" ++ "unknown" ++ ":"
          ++ lowerString (l1.address.getD "")
    ∧ getEventId l1 = getEventId l2
    ∧ (∀ (st : IngestState) (now : ℤ),
        0 ≤ st.processedEventIds.ttlMs →
        (st.processedEventIds.has now (getEventId l1)).1 = false →
        (processLogs now st [l1, l2]).2 = [l1]) := by
  have heq1 : getEventId l1
      = l1.transactionHash.getD "unknown" ++ ":" ++ "unknown" ++ ":"
        ++ lowerString (l1.address.getD "") := by
    unfold getEventId
    rw [h1a, h1b, h1c]
  have heq2 : getEventId l1 = getEventId l2 := by
    unfold getEventId
    rw [h1a, h1b, h1c, h2a, h2b, h2c, htx, haddr]
  refine ⟨heq1, heq2, ?_⟩
  intro st now httl hfalse
  rw [processLogs_cons_new hfalse]
  have httlsnd :
      ((st.processedEventIds.has now (getEventId l1)).2).ttlMs
        = st.processedEventIds.ttlMs :=
    LRUCache.ttlMs_has_snd _ _ _
  have htrue :
      (((st.processedEventIds.has now (getEventId l1)).2.set now
          (getEventId l1) true none).has now (getEventId l2)).1 = true := by
    rw [← heq2]
    apply LRUCache.has_set_self
    rw [Option.getD_none, httlsnd]
    omega
  dsimp only
  rw [processLogs_cons_seen htrue]
  simp [processLogs]

/-- Witness for C10: two distinct index-less logs with the same tx hash and
case-insensitively equal addresses; the batch dispatches only the first. -/
theorem getEventId_unknown_collision_witness :
    (processLogs 0 ⟨⟨50000, 1800000, []⟩, ⟨none, false⟩⟩
        [⟨some "0xab", none, none, none, some "0xCD", none⟩,
         ⟨some "0xab", none, none, none, some "0xcd", some 5⟩]).2
      = [⟨some "0xab", none, none, none, some "0xCD", none⟩] :=
  (getEventId_unknown_collision
    ⟨some "0xab", none, none, none, some "0xCD", none⟩
    ⟨some "0xab", none, none, none, some "0xcd", some 5⟩
    rfl rfl rfl rfl rfl rfl rfl (by decide)).2.2
    ⟨⟨50000, 1800000, []⟩, ⟨none, false⟩⟩ 0 (by decide) (by decide)

end Sniper
